import Mathlib

/-!
Verification development for the PTT board monitor (`ptt_monitor.py`).

Strings from the Python program (article ids, titles, keywords, state-file
lines) are modelled as `List Char`.  Timestamps (Python `datetime` values,
compared with `<` / `>=`) are modelled as `Int`; the program only ever
compares them, so the embedding keeps the order structure and nothing else.
A `datetime`-or-`None` value is `Option Int`.

The per-article resolution `fetch_article_datetime(url)` is a network call;
in the embedding every article record carries the value that resolution
returns for it (`Article.dt`), which is also the value stored under the
`'datetime'` key by `get_ptt_articles` when a cutoff is given.  The retry
performed by `main` line 328 (`article.get('datetime') or
fetch_article_datetime(...)`) therefore yields the same value; the fact that
a retry call happened at all is recorded in `LoopOut.refetched`.
-/

/-- One discovered article: `{'id': ..., 'title': ..., 'url': ...}` plus the
result of resolving its publication time (`'datetime'` key; `none` means
resolution failed). The `url` field is determined by the id and is not
modelled separately. -/
structure Article where
  id : List Char
  title : List Char
  dt : Option Int
deriving DecidableEq

/-- In-memory `processed_ids` dictionary: `none` = id absent,
`some none` = id present with `None` timestamp, `some (some t)` = id present
with timestamp `t`. -/
def StateFn : Type := List Char → Option (Option Int)

/-- The empty dictionary (no state file, or `load_processed_ids` of a missing
file). -/
def emptyState : StateFn := fun _ => none

/-- Dictionary update `processed_ids[id] = v`. -/
def stateSet (s : StateFn) (i : List Char) (v : Option Int) : StateFn :=
  fun x => if x = i then some v else s x

/-- Python `str.lower()` on our character-list strings. -/
def lowerStr (l : List Char) : List Char := l.map Char.toLower

/-- Python `needle in hay` (contiguous substring test) on character lists. -/
def containsSub (hay needle : List Char) : Bool :=
  match hay with
  | [] => needle = []
  | _ :: rest => needle.isPrefixOf hay || containsSub rest needle

/-- Keyword match from `main` line 339:
`any(keyword.lower() in title.lower() for keyword in keywords)`. -/
def matchedB (keywords : List (List Char)) (title : List Char) : Bool :=
  keywords.any fun k => containsSub (lowerStr title) (lowerStr k)

/-- Observable outcome of the per-article loop of `main` (lines 319-346):
the notified articles in order, the final dictionary, the ids for which a
detail-page refetch was attempted (line 328 with no `'datetime'` value), and
the Discord send attempts with their success flag. -/
structure LoopOut where
  notifs : List Article
  state : StateFn
  refetched : List (List Char)
  sent : List (List Char × Bool)

/-- The per-article loop of `main` (lines 320-346).  `deliver` is the
webhook's behaviour (`send_discord_notification` succeeds or fails; either
way it returns normally, so the loop never sees a delivery error). `now` is
`now_tz`, recorded when a timestamp cannot be resolved (line 331). -/
def classifyLoop (deliver : List Char → Bool) (keywords : List (List Char))
    (cutoff now : Int) : List Article → StateFn → LoopOut
  | [], s => ⟨[], s, [], []⟩
  | a :: rest, s =>
    match s a.id with
    | some _ => classifyLoop deliver keywords cutoff now rest s
    | none =>
      match a.dt with
      | none =>
        let out := classifyLoop deliver keywords cutoff now rest
          (stateSet s a.id (some now))
        ⟨out.notifs, out.state, a.id :: out.refetched, out.sent⟩
      | some t =>
        if t < cutoff then
          classifyLoop deliver keywords cutoff now rest (stateSet s a.id (some t))
        else if matchedB keywords a.title then
          let out := classifyLoop deliver keywords cutoff now rest
            (stateSet s a.id (some t))
          ⟨a :: out.notifs, out.state, out.refetched,
            (a.id, deliver a.id) :: out.sent⟩
        else
          classifyLoop deliver keywords cutoff now rest (stateSet s a.id (some t))

/-- Prune on save (`main` lines 349-353): keep an entry iff its timestamp is
`None` or `>= cutoff`. -/
def pruneState (cutoff : Int) (s : StateFn) : StateFn :=
  fun i =>
    match s i with
    | some (some t) => if cutoff ≤ t then some (some t) else none
    | v => v

/-- The whole classification phase of `main` (lines 319-353): the per-article
loop followed by the prune, which runs only when the retention window
`days` is positive (`retentionPos`). -/
def classify (deliver : List Char → Bool) (keywords : List (List Char))
    (cutoff now : Int) (retentionPos : Bool) (articles : List Article)
    (s : StateFn) : LoopOut :=
  let o := classifyLoop deliver keywords cutoff now articles s
  ⟨o.notifs, if retentionPos then pruneState cutoff o.state else o.state,
    o.refetched, o.sent⟩

/-- The first listed article carrying a given id (`none` if the id does not
occur). -/
def firstWith (i : List Char) : List Article → Option Article
  | [] => none
  | a :: l => if a.id = i then some a else firstWith i l

/-- An article whose timestamp resolved inside the window: `dt = some t`
with `t >= cutoff`. -/
def inWindowB (c : Int) (a : Article) : Bool :=
  match a.dt with
  | some t => decide (c ≤ t)
  | none => false

/-! ### Pagination walker (`get_ptt_articles`, lines 109-212) -/

/-- One fetched listing page after parsing: the article entries in source
order (each already carrying its resolved `'datetime'`, fetched at line 165
when a cutoff is given) and the page-number read from the `‹ 上頁` link
(`prevLink = none` models a missing or unparsable link). -/
structure ListingPage where
  entries : List Article
  prevLink : Option Nat
deriving DecidableEq

/-- The remote board seen through `fetch_ptt_page_with_retry`: `none` means
the transport exhausted its retries for that listing page.  `newest` is
`index.html`; `indexed n` is `index{n}.html`. -/
structure Board where
  newest : Option ListingPage
  indexed : Nat → Option ListingPage

/-- A listing page the walker requested. -/
inductive PageRef where
  | newest : PageRef
  | idx : Nat → PageRef
deriving DecidableEq

/-- Entries kept by the parse loop (lines 144-166): an entry survives iff its
`article_id` is nonempty (`if article_id:`). -/
def pageEntries (pg : ListingPage) : List Article :=
  pg.entries.filter fun a => a.id ≠ []

/-- `parsed_dates` (line 173): the resolved timestamps on a page. -/
def pageDates (pg : ListingPage) : List Int :=
  (pageEntries pg).filterMap fun a => a.dt

/-- Python `max` on a nonempty list (`max(parsed_dates)`, line 177); the
`[]` case never arises because the code checks emptiness first. -/
def listMax : List Int → Int
  | [] => 0
  | [x] => x
  | x :: y :: l => max x (listMax (y :: l))

/-- The walker's steady state (lines 202-210): `current_index_num` is known,
pages `index n, index (n-1), ...` are fetched until a stop condition fires.
Returns the accumulated articles and the listing pages requested.  Stops on:
transport failure, a page with no resolvable date, a page whose newest date
is older than the cutoff, or the index running below zero. -/
def crawlFrom (b : Board) (cutoff : Int) : Nat → List Article × List PageRef
  | 0 =>
    match b.indexed 0 with
    | none => ([], [PageRef.idx 0])
    | some pg =>
      let arts := pageEntries pg
      match pageDates pg with
      | [] => (arts, [PageRef.idx 0])
      | d :: ds =>
        if listMax (d :: ds) < cutoff then (arts, [PageRef.idx 0])
        else (arts, [PageRef.idx 0])
  | Nat.succ n' =>
    match b.indexed (Nat.succ n') with
    | none => ([], [PageRef.idx (Nat.succ n')])
    | some pg =>
      let arts := pageEntries pg
      match pageDates pg with
      | [] => (arts, [PageRef.idx (Nat.succ n')])
      | d :: ds =>
        if listMax (d :: ds) < cutoff then (arts, [PageRef.idx (Nat.succ n')])
        else
          let r := crawlFrom b cutoff n'
          (arts ++ r.1, PageRef.idx (Nat.succ n') :: r.2)

/-- `get_ptt_articles(board, cutoff)` (lines 109-212): fetch `index.html`;
with no cutoff stop after one page; otherwise check the page's dates, read
the `‹ 上頁` link for the older-page index and fall into `crawlFrom`.
Returns the article list together with the listing pages requested. -/
def crawl (b : Board) (cutoff : Option Int) : List Article × List PageRef :=
  match b.newest with
  | none => ([], [PageRef.newest])
  | some pg =>
    let arts := pageEntries pg
    match cutoff with
    | none => (arts, [PageRef.newest])
    | some c =>
      match pageDates pg with
      | [] => (arts, [PageRef.newest])
      | d :: ds =>
        if listMax (d :: ds) < c then (arts, [PageRef.newest])
        else
          match pg.prevLink with
          | none => (arts, [PageRef.newest])
          | some n =>
            let r := crawlFrom b c n
            (arts ++ r.1, PageRef.newest :: r.2)

/-- The tail of `main` (lines 312-356): crawl, and if no articles were
obtained return without touching the state file (`if not articles: return`),
otherwise classify and save.  `some s` is the dictionary handed to
`save_processed_ids`; `none` means the file is left unchanged. -/
def runSave (b : Board) (deliver : List Char → Bool)
    (keywords : List (List Char)) (cutoff now : Int) (retentionPos : Bool)
    (s : StateFn) : Option StateFn :=
  let arts := (crawl b (some cutoff)).1
  match arts with
  | [] => none
  | _ :: _ =>
    some (classify deliver keywords cutoff now retentionPos arts s).state

/-- Concatenation of the parsed entries of `cnt` consecutive pages starting
at position `start` of a positional page family. -/
def pagesConcat (P : Nat → ListingPage) : Nat → Nat → List Article
  | _, 0 => []
  | start, Nat.succ k => pageEntries (P start) ++ pagesConcat P (start + 1) k

/-- The page references `index j, index (j-1), ...` (`cnt` of them). -/
def pageRefsFrom : Nat → Nat → List PageRef
  | _, 0 => []
  | j, Nat.succ k => PageRef.idx j :: pageRefsFrom (j - 1) k

/-! ### State store (`load_processed_ids` / `save_processed_ids`, lines 19-53)

The persisted file is modelled as its list of lines (each a `List Char`).
A persisted timestamp is a pair `(v, tz) : Int × Option Int`: the civil-time
value together with the timezone offset (`none` = naive datetime, as
`datetime.fromisoformat` returns for a stamp without an offset).  The
external `datetime` library's rendering and parsing (`dt.isoformat()` /
`datetime.fromisoformat`) appear as the `render` / `parse` parameters; the
`ValueError` branch of the source corresponds to `parse = none`. -/

/-- A timestamp as stored: civil value plus optional timezone offset. -/
abbrev Stamp : Type := Int × Option Int

/-- `TAIPEI_TZ = timezone(timedelta(hours=8))`, as an offset in minutes. -/
def taipeiTz : Int := 480

/-- The in-memory dictionary built by the loader / handed to the saver:
association list from id to `None`-or-timestamp. -/
abbrev Store : Type := List (List Char × Option Stamp)

/-- Characters removed by Python `str.strip()` (ASCII whitespace). -/
def wsChar (c : Char) : Bool :=
  c = ' ' || c = '\t' || c = '\n' || c = '\r' || c = '\x0b' || c = '\x0c'

/-- Python `line.strip()` on a character list. -/
def trimL (l : List Char) : List Char :=
  ((l.dropWhile wsChar).reverse.dropWhile wsChar).reverse

/-- Python `line.split('|', 1)` when `'|' in line`: split at the first pipe;
`none` when the line has no pipe. -/
def splitPipe : List Char → Option (List Char × List Char)
  | [] => none
  | c :: rest =>
    if c = '|' then some ([], rest)
    else
      match splitPipe rest with
      | some (a, b) => some (c :: a, b)
      | none => none

/-- One iteration of the loader (lines 26-41): strip, skip blank and `#`
lines, split id from timestamp at the first pipe, parse the timestamp
(falling back to `None` on `ValueError`) and give a naive stamp the Taipei
zone; a line without a pipe is a legacy bare id with unknown timestamp.
Returns `none` when the line contributes no entry. -/
def parseLine (parse : List Char → Option Stamp) (line : List Char) :
    Option (List Char × Option Stamp) :=
  let l := trimL line
  if l = [] then none
  else if l.head? = some '#' then none
  else
    match splitPipe l with
    | some (i, ts) =>
      match parse ts with
      | some (v, some z) => some (i, some (v, some z))
      | some (v, none) => some (i, some (v, some taipeiTz))
      | none => some (i, none)
    | none => some (l, none)

/-- Python dict assignment `processed[id] = dt`: replace the value of an
existing key in place, otherwise append a new entry. -/
def dictInsert (s : Store) (i : List Char) (v : Option Stamp) : Store :=
  if s.any (fun e => e.1 = i) then
    s.map fun e => if e.1 = i then (i, v) else e
  else s ++ [(i, v)]

/-- Dictionary lookup on the association list (first matching key). -/
def storeFind : Store → List Char → Option (Option Stamp)
  | [], _ => none
  | e :: rest, i => if e.1 = i then some e.2 else storeFind rest i

/-- `load_processed_ids` (lines 19-42) over the file's lines. -/
def loadLines (parse : List Char → Option Stamp) (lines : List (List Char)) :
    Store :=
  lines.foldl
    (fun s line =>
      match parseLine parse line with
      | none => s
      | some (i, v) => dictInsert s i v)
    []

/-- Python string `<=` (code-point lexicographic) on character lists, used
by `sorted(processed_ids)`. -/
def lexLe : List Char → List Char → Bool
  | [], _ => true
  | _ :: _, [] => false
  | a :: as_, b :: bs =>
    if a = b then lexLe as_ bs else decide (a < b)

/-- `sorted(processed_ids)`: the entries in ascending id order. -/
def sortStore (s : Store) : Store :=
  List.insertionSort (fun e f => lexLe e.1 f.1 = true) s

/-- One output line of the saver (lines 48-53): `id|isoformat` when a
timestamp is present (`if dt:`), a bare id otherwise. -/
def renderEntry (render : Stamp → List Char) (e : List Char × Option Stamp) :
    List Char :=
  match e.2 with
  | some ts => e.1 ++ '|' :: render ts
  | none => e.1

/-- `save_processed_ids` (lines 45-53) as the list of lines written. -/
def saveLines (render : Stamp → List Char) (s : Store) : List (List Char) :=
  (sortStore s).map (renderEntry render)

/-- Well-formedness of an article id as a state-file key: nonempty, free of
whitespace and pipes, not starting with the comment marker. -/
def goodId (i : List Char) : Prop :=
  i ≠ [] ∧ (∀ c ∈ i, wsChar c = false) ∧ i.head? ≠ some '#' ∧ '|' ∉ i

instance (i : List Char) : Decidable (goodId i) := by
  unfold goodId
  infer_instance

/-- A line the loader ignores: blank after stripping, or a comment. -/
def junkLine (l : List Char) : Bool :=
  trimL l = [] || (trimL l).head? = some '#'

/-- Contract of the external `datetime` formatter for a stored stamp: the
rendered text parses back to the same stamp, the stamp carries a timezone
(`dt.isoformat()` of a zoned datetime, so the loader's naive-stamp fix does
not fire), and the rendering contains no whitespace. -/
def goodStamp (render : Stamp → List Char) (parse : List Char → Option Stamp)
    (ts : Stamp) : Prop :=
  parse (render ts) = some ts ∧ ts.2 ≠ none ∧ ∀ c ∈ render ts, wsChar c = false

instance (render : Stamp → List Char) (parse : List Char → Option Stamp)
    (ts : Stamp) : Decidable (goodStamp render parse ts) := by
  unfold goodStamp
  infer_instance

/-- The keys of a store, in order. -/
def storeKeys (s : Store) : List (List Char) := s.map fun e => e.1

/-- Extensional equality of stores: the same lookup result for every id
(Python dict equality is also key-value based, not order based). -/
def storeEquiv (s t : Store) : Prop := ∀ j, storeFind s j = storeFind t j

example :
    (classifyLoop (fun _ => true) [['x']] 5 10
      [⟨['A'], ['x'], some 7⟩] emptyState).notifs = [⟨['A'], ['x'], some 7⟩] := by
  decide

example :
    (classify (fun _ => true) [['x']] 5 10 true
      [⟨['A'], ['x'], some 0⟩] emptyState).state ['A'] = none := by
  decide

example :
    (crawl ⟨some ⟨[⟨['A'], ['t'], some 10⟩], some 7⟩,
        fun n => if n = 7 then some ⟨[⟨['B'], ['u'], some 0⟩], none⟩ else none⟩
      (some 5)).2 = [PageRef.newest, PageRef.idx 7] := by
  decide

/-! ### Lemmas about the classification loop -/

theorem stateSet_app (s : StateFn) (i : List Char) (v : Option Int)
    (x : List Char) : stateSet s i v x = if x = i then some v else s x := rfl

theorem loop_state_stable (d : List Char → Bool) (kw : List (List Char))
    (c n : Int) (l : List Article) :
    ∀ (s : StateFn) (i : List Char) (v : Option Int), s i = some v →
      (classifyLoop d kw c n l s).state i = some v := by
  induction l with
  | nil => intro s i v h; simpa [classifyLoop] using h
  | cons a rest ih =>
    intro s i v h
    cases hsa : s a.id with
    | some w =>
      simpa only [classifyLoop, hsa] using ih s i v h
    | none =>
      have hni : i ≠ a.id := by
        intro he; rw [← he, h] at hsa; cases hsa
      have hset : ∀ w, stateSet s a.id w i = some v := by
        intro w; rw [stateSet_app, if_neg hni]; exact h
      cases hdt : a.dt with
      | none =>
        simpa only [classifyLoop, hsa, hdt] using ih _ i v (hset (some n))
      | some t =>
        by_cases hlt : t < c
        · simpa only [classifyLoop, hsa, hdt, if_pos hlt] using
            ih _ i v (hset (some t))
        · by_cases hm : matchedB kw a.title
          · simpa only [classifyLoop, hsa, hdt, if_neg hlt, hm, if_true] using
              ih _ i v (hset (some t))
          · simp only [classifyLoop, hsa, hdt, if_neg hlt, hm]
            simpa using ih _ i v (hset (some t))

theorem loop_cons_skip (d : List Char → Bool) (kw : List (List Char))
    (c n : Int) (a : Article) (rest : List Article) (s : StateFn)
    (w : Option Int) (h : s a.id = some w) :
    classifyLoop d kw c n (a :: rest) s = classifyLoop d kw c n rest s := by
  simp only [classifyLoop, h]

theorem loop_cons_proc_state (d : List Char → Bool) (kw : List (List Char))
    (c n : Int) (a : Article) (rest : List Article) (s : StateFn)
    (h : s a.id = none) :
    (classifyLoop d kw c n (a :: rest) s).state =
      (classifyLoop d kw c n rest
        (stateSet s a.id (some (a.dt.getD n)))).state := by
  cases hdt : a.dt with
  | none => simp only [classifyLoop, h, hdt, Option.getD]
  | some t =>
    by_cases hlt : t < c
    · simp only [classifyLoop, h, hdt, if_pos hlt, Option.getD]
    · by_cases hm : matchedB kw a.title
      · simp only [classifyLoop, h, hdt, if_neg hlt, hm, if_true, Option.getD]
      · simp only [classifyLoop, h, hdt, if_neg hlt, hm, Option.getD]
        simp

theorem loop_cons_proc_notifs (d : List Char → Bool) (kw : List (List Char))
    (c n : Int) (a : Article) (rest : List Article) (s : StateFn)
    (h : s a.id = none) :
    (classifyLoop d kw c n (a :: rest) s).notifs =
      (if inWindowB c a && matchedB kw a.title then [a] else []) ++
        (classifyLoop d kw c n rest
          (stateSet s a.id (some (a.dt.getD n)))).notifs := by
  cases hdt : a.dt with
  | none => simp only [classifyLoop, h, hdt, inWindowB, Option.getD]; simp
  | some t =>
    by_cases hlt : t < c
    · have hw : inWindowB c a = false := by
        simp only [inWindowB, hdt, decide_eq_false_iff_not]
        omega
      simp only [classifyLoop, h, hdt, if_pos hlt, hw, Option.getD]
      simp
    · have hw : inWindowB c a = true := by
        simp only [inWindowB, hdt, decide_eq_true_eq]
        omega
      by_cases hm : matchedB kw a.title
      · simp only [classifyLoop, h, hdt, if_neg hlt, hm, if_true, hw,
          Option.getD]
        simp
      · simp only [classifyLoop, h, hdt, if_neg hlt, hm, hw, Option.getD]
        simp

theorem loop_cons_proc_refetched (d : List Char → Bool)
    (kw : List (List Char)) (c n : Int) (a : Article) (rest : List Article)
    (s : StateFn) (h : s a.id = none) :
    (classifyLoop d kw c n (a :: rest) s).refetched =
      (if a.dt = none then [a.id] else []) ++
        (classifyLoop d kw c n rest
          (stateSet s a.id (some (a.dt.getD n)))).refetched := by
  cases hdt : a.dt with
  | none => simp only [classifyLoop, h, hdt, Option.getD]; simp
  | some t =>
    by_cases hlt : t < c
    · simp only [classifyLoop, h, hdt, if_pos hlt, Option.getD]; simp
    · by_cases hm : matchedB kw a.title
      · simp only [classifyLoop, h, hdt, if_neg hlt, hm, if_true, Option.getD]
        simp
      · simp only [classifyLoop, h, hdt, if_neg hlt, hm, Option.getD]
        simp

theorem loop_state_present (d : List Char → Bool) (kw : List (List Char))
    (c n : Int) (l : List Article) :
    ∀ (s : StateFn), ∀ a ∈ l, (classifyLoop d kw c n l s).state a.id ≠ none := by
  induction l with
  | nil => intro s a ha; cases ha
  | cons b rest ih =>
    intro s a ha
    cases hsb : s b.id with
    | some w =>
      rcases List.mem_cons.mp ha with he | hm
      · subst he
        simp only [classifyLoop, hsb]
        rw [loop_state_stable d kw c n rest s a.id w hsb]
        simp
      · simpa only [classifyLoop, hsb] using ih s a hm
    | none =>
      have hstep : ∀ w, stateSet s b.id w b.id = some w := by
        intro w; rw [stateSet_app, if_pos rfl]
      rcases List.mem_cons.mp ha with he | hm
      · subst he
        cases hdt : a.dt with
        | none =>
          simp only [classifyLoop, hsb, hdt]
          rw [loop_state_stable d kw c n rest _ a.id (some n) (hstep _)]
          simp
        | some t =>
          by_cases hlt : t < c
          · simp only [classifyLoop, hsb, hdt, if_pos hlt]
            rw [loop_state_stable d kw c n rest _ a.id (some t) (hstep _)]
            simp
          · by_cases hm2 : matchedB kw a.title
            · simp only [classifyLoop, hsb, hdt, if_neg hlt, hm2, if_true]
              rw [loop_state_stable d kw c n rest _ a.id (some t) (hstep _)]
              simp
            · simp only [classifyLoop, hsb, hdt, if_neg hlt, hm2]
              simp only [if_false, Bool.false_eq_true]
              rw [loop_state_stable d kw c n rest _ a.id (some t) (hstep _)]
              simp
      · cases hdt : b.dt with
        | none => simpa only [classifyLoop, hsb, hdt] using ih _ a hm
        | some t =>
          by_cases hlt : t < c
          · simpa only [classifyLoop, hsb, hdt, if_pos hlt] using ih _ a hm
          · by_cases hm2 : matchedB kw b.title
            · simpa only [classifyLoop, hsb, hdt, if_neg hlt, hm2, if_true]
                using ih _ a hm
            · simp only [classifyLoop, hsb, hdt, if_neg hlt, hm2]
              simpa using ih _ a hm

theorem loop_notifs_window (d : List Char → Bool) (kw : List (List Char))
    (c n : Int) (l : List Article) :
    ∀ (s : StateFn), ∀ x ∈ (classifyLoop d kw c n l s).notifs,
      inWindowB c x = true ∧ matchedB kw x.title = true := by
  induction l with
  | nil => intro s x hx; simp [classifyLoop] at hx
  | cons a rest ih =>
    intro s x hx
    cases hsa : s a.id with
    | some w =>
      rw [loop_cons_skip d kw c n a rest s w hsa] at hx
      exact ih s x hx
    | none =>
      rw [loop_cons_proc_notifs d kw c n a rest s hsa] at hx
      rcases List.mem_append.mp hx with hx1 | hx2
      · by_cases hb : inWindowB c a && matchedB kw a.title
        · rw [if_pos hb] at hx1
          rcases List.mem_singleton.mp hx1 with rfl
          exact ⟨(Bool.and_eq_true _ _ ▸ hb).1, (Bool.and_eq_true _ _ ▸ hb).2⟩
        · rw [if_neg hb] at hx1; cases hx1
      · exact ih _ x hx2

theorem loop_first_state (d : List Char → Bool) (kw : List (List Char))
    (c n : Int) (l : List Article) :
    ∀ (s : StateFn) (i : List Char) (b : Article), s i = none →
      firstWith i l = some b →
      (classifyLoop d kw c n l s).state i = some (some (b.dt.getD n)) := by
  induction l with
  | nil => intro s i b _ hf; cases hf
  | cons a rest ih =>
    intro s i b hs hf
    by_cases hid : a.id = i
    · rw [firstWith, if_pos hid] at hf
      rcases Option.some.inj hf with rfl
      have hsa : s a.id = none := by rw [hid]; exact hs
      rw [loop_cons_proc_state d kw c n a rest s hsa]
      have hv : stateSet s a.id (some (a.dt.getD n)) i = some (some (a.dt.getD n)) := by
        rw [stateSet_app, if_pos hid.symm]
      exact loop_state_stable d kw c n rest _ i _ hv
    · rw [firstWith, if_neg hid] at hf
      cases hsa : s a.id with
      | some w => rw [loop_cons_skip d kw c n a rest s w hsa]; exact ih s i b hs hf
      | none =>
        rw [loop_cons_proc_state d kw c n a rest s hsa]
        have hs' : stateSet s a.id (some (a.dt.getD n)) i = none := by
          rw [stateSet_app, if_neg (fun he => hid he.symm)]; exact hs
        exact ih _ i b hs' hf

theorem loop_first_notif (d : List Char → Bool) (kw : List (List Char))
    (c n : Int) (l : List Article) :
    ∀ (s : StateFn) (i : List Char) (b : Article), s i = none →
      firstWith i l = some b → inWindowB c b = true →
      matchedB kw b.title = true →
      b ∈ (classifyLoop d kw c n l s).notifs := by
  induction l with
  | nil => intro s i b _ hf; cases hf
  | cons a rest ih =>
    intro s i b hs hf hwin hm
    by_cases hid : a.id = i
    · rw [firstWith, if_pos hid] at hf
      rcases Option.some.inj hf with rfl
      have hsa : s a.id = none := by rw [hid]; exact hs
      rw [loop_cons_proc_notifs d kw c n a rest s hsa, hwin, hm]
      simp
    · rw [firstWith, if_neg hid] at hf
      cases hsa : s a.id with
      | some w =>
        rw [loop_cons_skip d kw c n a rest s w hsa]
        exact ih s i b hs hf hwin hm
      | none =>
        rw [loop_cons_proc_notifs d kw c n a rest s hsa]
        have hs' : stateSet s a.id (some (a.dt.getD n)) i = none := by
          rw [stateSet_app, if_neg (fun he => hid he.symm)]; exact hs
        exact List.mem_append_right _ (ih _ i b hs' hf hwin hm)

theorem loop_skip_all (d : List Char → Bool) (kw : List (List Char))
    (c n : Int) (l : List Article) :
    ∀ (s : StateFn) (i : List Char), s i ≠ none →
      (classifyLoop d kw c n l s).state i = s i ∧
        i ∉ (classifyLoop d kw c n l s).refetched ∧
        ∀ x ∈ (classifyLoop d kw c n l s).notifs, x.id ≠ i := by
  induction l with
  | nil => intro s i h; refine ⟨rfl, ?_, ?_⟩ <;> simp [classifyLoop]
  | cons a rest ih =>
    intro s i h
    cases hsa : s a.id with
    | some w =>
      rw [loop_cons_skip d kw c n a rest s w hsa]
      exact ih s i h
    | none =>
      have hai : a.id ≠ i := by
        intro he; rw [he] at hsa; exact h hsa
      have hs' : stateSet s a.id (some (a.dt.getD n)) i = s i := by
        rw [stateSet_app, if_neg (fun he => hai he.symm)]
      have h' : stateSet s a.id (some (a.dt.getD n)) i ≠ none := by
        rw [hs']; exact h
      rcases ih (stateSet s a.id (some (a.dt.getD n))) i h' with ⟨ih1, ih2, ih3⟩
      refine ⟨?_, ?_, ?_⟩
      · rw [loop_cons_proc_state d kw c n a rest s hsa, ih1, hs']
      · rw [loop_cons_proc_refetched d kw c n a rest s hsa]
        intro hmem
        rcases List.mem_append.mp hmem with h1 | h2
        · by_cases hdt : a.dt = none
          · rw [if_pos hdt] at h1
            exact hai (List.mem_singleton.mp h1).symm
          · rw [if_neg hdt] at h1; cases h1
        · exact ih2 h2
      · rw [loop_cons_proc_notifs d kw c n a rest s hsa]
        intro x hx
        rcases List.mem_append.mp hx with h1 | h2
        · by_cases hb : inWindowB c a && matchedB kw a.title
          · rw [if_pos hb] at h1
            rcases List.mem_singleton.mp h1 with rfl
            exact hai
          · rw [if_neg hb] at h1; cases h1
        · exact ih3 x h2

theorem loop_deliver_irrel (f g : List Char → Bool) (kw : List (List Char))
    (c n : Int) (l : List Article) :
    ∀ (s : StateFn),
      (classifyLoop f kw c n l s).state = (classifyLoop g kw c n l s).state ∧
        (classifyLoop f kw c n l s).notifs =
          (classifyLoop g kw c n l s).notifs ∧
        (classifyLoop f kw c n l s).refetched =
          (classifyLoop g kw c n l s).refetched := by
  induction l with
  | nil => intro s; exact ⟨rfl, rfl, rfl⟩
  | cons a rest ih =>
    intro s
    cases hsa : s a.id with
    | some w =>
      rw [loop_cons_skip f kw c n a rest s w hsa,
        loop_cons_skip g kw c n a rest s w hsa]
      exact ih s
    | none =>
      rcases ih (stateSet s a.id (some (a.dt.getD n))) with ⟨ih1, ih2, ih3⟩
      refine ⟨?_, ?_, ?_⟩
      · rw [loop_cons_proc_state f kw c n a rest s hsa,
          loop_cons_proc_state g kw c n a rest s hsa, ih1]
      · rw [loop_cons_proc_notifs f kw c n a rest s hsa,
          loop_cons_proc_notifs g kw c n a rest s hsa, ih2]
      · rw [loop_cons_proc_refetched f kw c n a rest s hsa,
          loop_cons_proc_refetched g kw c n a rest s hsa, ih3]

theorem firstWith_of_mem (l : List Article) (a : Article) (ha : a ∈ l) :
    ∃ b, firstWith a.id l = some b ∧ b.id = a.id := by
  induction l with
  | nil => cases ha
  | cons h rest ih =>
    by_cases hid : h.id = a.id
    · exact ⟨h, by rw [firstWith, if_pos hid], hid⟩
    · have hm : a ∈ rest := by
        rcases List.mem_cons.mp ha with rfl | hm
        · exact absurd rfl hid
        · exact hm
      rcases ih hm with ⟨b, hb, hbid⟩
      exact ⟨b, by rw [firstWith, if_neg hid]; exact hb, hbid⟩

theorem loop_no_notifs_of_inv (d : List Char → Bool) (kw : List (List Char))
    (c n : Int) (l : List Article) :
    ∀ (s : StateFn),
      (∀ a ∈ l, inWindowB c a = true →
        s a.id ≠ none ∨ ∃ b, firstWith a.id l = some b ∧ inWindowB c b = false) →
      (classifyLoop d kw c n l s).notifs = [] := by
  induction l with
  | nil => intro s _; rfl
  | cons a rest ih =>
    intro s hinv
    cases hsa : s a.id with
    | some w =>
      rw [loop_cons_skip d kw c n a rest s w hsa]
      apply ih
      intro x hx hwx
      rcases hinv x (List.mem_cons_of_mem _ hx) hwx with h1 | ⟨b, hb, hbw⟩
      · exact Or.inl h1
      · by_cases hax : a.id = x.id
        · refine Or.inl ?_
          rw [← hax, hsa]
          simp
        · refine Or.inr ⟨b, ?_, hbw⟩
          rwa [firstWith, if_neg hax] at hb
    | none =>
      have hwa : inWindowB c a = false := by
        by_cases hw : inWindowB c a = true
        · rcases hinv a (List.mem_cons_self a rest) hw with h1 | ⟨b, hb, hbw⟩
          · exact absurd hsa h1
          · rw [firstWith, if_pos rfl] at hb
            rcases Option.some.inj hb with rfl
            rw [hw] at hbw
            cases hbw
        · exact Bool.not_eq_true _ ▸ Bool.of_not_eq_true hw
      rw [loop_cons_proc_notifs d kw c n a rest s hsa, hwa]
      simp only [Bool.false_and, Bool.false_eq_true, if_false, List.nil_append]
      apply ih
      intro x hx hwx
      by_cases hax : x.id = a.id
      · refine Or.inl ?_
        rw [stateSet_app, if_pos hax]
        simp
      · rcases hinv x (List.mem_cons_of_mem _ hx) hwx with h1 | ⟨b, hb, hbw⟩
        · refine Or.inl ?_
          rw [stateSet_app, if_neg hax]
          exact h1
        · refine Or.inr ⟨b, ?_, hbw⟩
          rwa [firstWith, if_neg (fun he => hax he.symm)] at hb

theorem classify_empty_inv (d : List Char → Bool) (kw : List (List Char))
    (c n : Int) (rp : Bool) (l : List Article) :
    ∀ a ∈ l, inWindowB c a = true →
      (classify d kw c n rp l emptyState).state a.id ≠ none ∨
        ∃ b, firstWith a.id l = some b ∧ inWindowB c b = false := by
  intro a ha _
  rcases firstWith_of_mem l a ha with ⟨b, hb, hbid⟩
  by_cases hbw : inWindowB c b = true
  · refine Or.inl ?_
    rcases hdb : b.dt with _ | tb
    · rw [inWindowB, hdb] at hbw; cases hbw
    · have htb : c ≤ tb := by
        rw [inWindowB, hdb] at hbw
        exact of_decide_eq_true hbw
      have hone : emptyState a.id = none := rfl
      have hst := loop_first_state d kw c n l emptyState a.id b hone hb
      rw [hdb] at hst
      simp only [Option.getD] at hst
      show (if rp then pruneState c (classifyLoop d kw c n l emptyState).state
          else (classifyLoop d kw c n l emptyState).state) a.id ≠ none
      cases rp with
      | false => simp only [Bool.false_eq_true, if_false, hst]; simp
      | true =>
        simp only [if_true, pruneState, hst, if_pos htb]
        simp
  · exact Or.inr ⟨b, hb, Bool.not_eq_true _ ▸ Bool.of_not_eq_true hbw⟩

/-! ### Claim theorems about the classification phase -/

/-- C1, counterexample to the claim as stated.  Two concrete scenes.
First: the claim leaves the first run's input state unconstrained; starting
from a state that holds a stale (pre-cutoff) timestamp for id `A` while the
crawled article `A` resolves inside the window, the first run skips `A`,
the prune then deletes its stale entry, and the second run notifies `A` —
so the second run's notifications are not zero.  Second: even starting from
the empty state, an article that the first run classifies as too old
(resolved `0 < cutoff 5`) is pruned from `updatedState` (entry `none`), and
the second run processes it again instead of skipping it (its loop entry is
re-created), refuting "every article processed in the first run is recorded
in the state and skipped in the second run". -/
theorem c1_counterexample :
    ((classify (fun _ => true) [['x']] 5 10 true [⟨['A'], ['x'], some 10⟩]
        (classify (fun _ => true) [['x']] 5 10 true [⟨['A'], ['x'], some 10⟩]
          (fun i => if i = ['A'] then some (some 0) else none)).state).notifs ≠ [])
      ∧ (classify (fun _ => true) [['x']] 5 10 true [⟨['A'], ['b'], some 0⟩]
          emptyState).state ['A'] = none
      ∧ (classifyLoop (fun _ => true) [['x']] 5 10 [⟨['A'], ['b'], some 0⟩]
          (classify (fun _ => true) [['x']] 5 10 true [⟨['A'], ['b'], some 0⟩]
            emptyState).state).state ['A'] ≠ none := by
  refine ⟨by decide, by decide, by decide⟩

/-- C1 (amended): for every article list, keyword list, cutoff and retention
flag, running the classification phase twice in a row — the first run from
the empty state — yields zero notifications on the second run.  (Articles
whose entry the prune removed are re-examined, not skipped, by the second
run, but they are too old or unresolvable and still produce no
notification.) -/
theorem c1_second_run_quiet (d1 d2 : List Char → Bool) (kw : List (List Char))
    (c n : Int) (rp : Bool) (l : List Article) :
    (classify d2 kw c n rp l
      (classify d1 kw c n rp l emptyState).state).notifs = [] := by
  show (classifyLoop d2 kw c n l
    (classify d1 kw c n rp l emptyState).state).notifs = []
  exact loop_no_notifs_of_inv d2 kw c n l _ (classify_empty_inv d1 kw c n rp l)

/-- C2, counterexample to the claim as stated: an article whose timestamp
resolves to `0`, older than the cutoff `5`, but whose id is already in the
loaded state with a different timestamp `99`; the loop skips it, so it is
never recorded with its own timestamp `0`. -/
theorem c2_counterexample :
    ((⟨['A'], ['x'], some 0⟩ : Article) ∈ [(⟨['A'], ['x'], some 0⟩ : Article)])
      ∧ (⟨['A'], ['x'], some 0⟩ : Article).dt = some 0
      ∧ (0 : Int) < 5
      ∧ (classifyLoop (fun _ => true) [['x']] 5 10 [⟨['A'], ['x'], some 0⟩]
          (fun i => if i = ['A'] then some (some 99) else none)).state ['A'] ≠
            some (some 0) := by
  refine ⟨by decide, by decide, by decide, by decide⟩

/-- C2 (amended): for every article in the crawl whose timestamp resolves to
`t`: it can be notified only if `t >= cutoff`; if `t < cutoff` it is never
notified, and — provided its id is not already in the state and it is the
first listed occurrence of that id — the loop records `state[id] = t`. -/
theorem c2_window (d : List Char → Bool) (kw : List (List Char)) (c n : Int)
    (l : List Article) (s : StateFn) (a : Article) (t : Int) (_ha : a ∈ l)
    (ht : a.dt = some t) :
    (a ∈ (classifyLoop d kw c n l s).notifs → c ≤ t)
      ∧ (t < c → a ∉ (classifyLoop d kw c n l s).notifs)
      ∧ (t < c → s a.id = none → firstWith a.id l = some a →
          (classifyLoop d kw c n l s).state a.id = some (some t)) := by
  have hwin : a ∈ (classifyLoop d kw c n l s).notifs → c ≤ t := by
    intro hmem
    have hw := (loop_notifs_window d kw c n l s a hmem).1
    rw [inWindowB, ht] at hw
    exact of_decide_eq_true hw
  refine ⟨hwin, ?_, ?_⟩
  · intro hlt hmem
    exact absurd (hwin hmem) (not_le.mpr hlt)
  · intro _ hs hf
    have hst := loop_first_state d kw c n l s a.id a hs hf
    rw [ht] at hst
    simpa using hst

/-- Witness for `c2_window` at a concrete input. -/
theorem c2_window_witness :
    ((⟨['A'], ['x'], some 0⟩ : Article) ∈ [(⟨['A'], ['x'], some 0⟩ : Article)])
      ∧ (⟨['A'], ['x'], some 0⟩ : Article).dt = some 0
      ∧ (0 : Int) < 5
      ∧ (classifyLoop (fun _ => true) [['x']] 5 10 [⟨['A'], ['x'], some 0⟩]
          emptyState).state (⟨['A'], ['x'], some 0⟩ : Article).id =
            some (some 0) :=
  ⟨by decide, by decide, by decide,
    (c2_window (fun _ => true) [['x']] 5 10 [⟨['A'], ['x'], some 0⟩]
      emptyState ⟨['A'], ['x'], some 0⟩ 0 (by decide) (by decide)).2.2
      (by decide) rfl (by decide)⟩

/-- C3: after the classification phase with a positive retention window,
every entry of the resulting state has an unknown timestamp or a timestamp
`>= cutoff`, and every loop entry with a known timestamp older than the
cutoff is gone from the resulting state. -/
theorem c3_prune_bound (d : List Char → Bool) (kw : List (List Char))
    (c n : Int) (l : List Article) (s : StateFn) :
    (∀ i v, (classify d kw c n true l s).state i = some v →
        v = none ∨ ∃ t, v = some t ∧ c ≤ t)
      ∧ ∀ i t, (classifyLoop d kw c n l s).state i = some (some t) → t < c →
          (classify d kw c n true l s).state i = none := by
  have hcs : (classify d kw c n true l s).state =
      pruneState c (classifyLoop d kw c n l s).state := rfl
  constructor
  · intro i v hv
    rw [hcs] at hv
    unfold pruneState at hv
    cases h : (classifyLoop d kw c n l s).state i with
    | none => simp only [h] at hv; cases hv
    | some w =>
      cases w with
      | none => simp only [h] at hv; exact Or.inl (Option.some.inj hv).symm
      | some t =>
        simp only [h] at hv
        by_cases hc : c ≤ t
        · rw [if_pos hc] at hv
          exact Or.inr ⟨t, (Option.some.inj hv).symm, hc⟩
        · rw [if_neg hc] at hv; cases hv
  · intro i t h hlt
    rw [hcs]
    unfold pruneState
    simp only [h]
    rw [if_neg (not_le.mpr hlt)]

/-- Witness for `c3_prune_bound` at a concrete input. -/
theorem c3_prune_bound_witness :
    ((classifyLoop (fun _ => true) [['z']] 5 10 [⟨['A'], ['x'], some 0⟩]
        emptyState).state ['A'] = some (some 0))
      ∧ (0 : Int) < 5
      ∧ (classify (fun _ => true) [['z']] 5 10 true [⟨['A'], ['x'], some 0⟩]
          emptyState).state ['A'] = none :=
  ⟨by decide, by decide,
    (c3_prune_bound (fun _ => true) [['z']] 5 10 [⟨['A'], ['x'], some 0⟩]
      emptyState).2 ['A'] 0 (by decide) (by decide)⟩

/-- C5: an article id already present in the loaded state is skipped
entirely by the classification loop: its state entry is left exactly as it
was, no detail-page refetch is attempted for it, and no notified article
carries that id. -/
theorem c5_skip_if_seen (d : List Char → Bool) (kw : List (List Char))
    (c n : Int) (l : List Article) (s : StateFn) (i : List Char)
    (h : s i ≠ none) :
    (classifyLoop d kw c n l s).state i = s i
      ∧ i ∉ (classifyLoop d kw c n l s).refetched
      ∧ ∀ x ∈ (classifyLoop d kw c n l s).notifs, x.id ≠ i :=
  loop_skip_all d kw c n l s i h

/-- Witness for `c5_skip_if_seen`: the spec's own scene, state containing
`M.111` with a stored timestamp and a crawl returning an article `M.111`
whose `'datetime'` is unresolved (so processing it would have refetched). -/
theorem c5_skip_if_seen_witness :
    ((fun j => if j = ['M', '.', '1', '1', '1'] then some (some 0) else none) :
        StateFn) ['M', '.', '1', '1', '1'] ≠ none
      ∧ ((classifyLoop (fun _ => true) [['x']] 5 10
            [⟨['M', '.', '1', '1', '1'], ['x'], none⟩]
            (fun j => if j = ['M', '.', '1', '1', '1'] then some (some 0)
              else none)).state ['M', '.', '1', '1', '1'] =
          ((fun j => if j = ['M', '.', '1', '1', '1'] then some (some 0)
            else none) : StateFn) ['M', '.', '1', '1', '1']
        ∧ ['M', '.', '1', '1', '1'] ∉
            (classifyLoop (fun _ => true) [['x']] 5 10
              [⟨['M', '.', '1', '1', '1'], ['x'], none⟩]
              (fun j => if j = ['M', '.', '1', '1', '1'] then some (some 0)
                else none)).refetched
        ∧ ∀ x ∈ (classifyLoop (fun _ => true) [['x']] 5 10
              [⟨['M', '.', '1', '1', '1'], ['x'], none⟩]
              (fun j => if j = ['M', '.', '1', '1', '1'] then some (some 0)
                else none)).notifs, x.id ≠ ['M', '.', '1', '1', '1']) :=
  ⟨by decide,
    c5_skip_if_seen (fun _ => true) [['x']] 5 10
      [⟨['M', '.', '1', '1', '1'], ['x'], none⟩]
      (fun j => if j = ['M', '.', '1', '1', '1'] then some (some 0) else none)
      ['M', '.', '1', '1', '1'] (by decide)⟩

/-- C6, counterexample to the claim as stated: an article classified as too
old (resolved `0`, cutoff `5`) is recorded by the loop but pruned before
save when the retention window is positive, so its id is absent from the
resulting state map. -/
theorem c6_counterexample :
    ((classifyLoop (fun _ => true) [['z']] 5 10 [⟨['A'], ['x'], some 0⟩]
        emptyState).state ['A'] = some (some 0))
      ∧ (classify (fun _ => true) [['z']] 5 10 true [⟨['A'], ['x'], some 0⟩]
          emptyState).state ['A'] = none := by
  refine ⟨by decide, by decide⟩

/-- C6 (amended): every crawled article's id — in particular every id
classified as too old, already notified or not matched — is present in the
classification loop's state map before the prune; the prune (C3) then
removes exactly the entries with a known timestamp older than the cutoff. -/
theorem c6_every_id_recorded (d : List Char → Bool) (kw : List (List Char))
    (c n : Int) (l : List Article) (s : StateFn) (a : Article) (ha : a ∈ l) :
    (classifyLoop d kw c n l s).state a.id ≠ none :=
  loop_state_present d kw c n l s a ha

/-- Witness for `c6_every_id_recorded` at a concrete input. -/
theorem c6_every_id_recorded_witness :
    ((⟨['A'], ['x'], some 0⟩ : Article) ∈ [(⟨['A'], ['x'], some 0⟩ : Article)])
      ∧ (classifyLoop (fun _ => true) [['z']] 5 10 [⟨['A'], ['x'], some 0⟩]
          emptyState).state (⟨['A'], ['x'], some 0⟩ : Article).id ≠ none :=
  ⟨by decide,
    c6_every_id_recorded (fun _ => true) [['z']] 5 10 [⟨['A'], ['x'], some 0⟩]
      emptyState ⟨['A'], ['x'], some 0⟩ (by decide)⟩

/-- C9: the dedup state and the notification list do not depend on the
delivery outcome at all (a webhook failure is absorbed inside
`send_discord_notification`), and a matched in-window article is recorded
with its timestamp — under any delivery behaviour — so delivery is
at-most-once. -/
theorem c9_at_most_once (f g : List Char → Bool) (kw : List (List Char))
    (c n : Int) (l : List Article) (s : StateFn) (a : Article) (t : Int)
    (hf : firstWith a.id l = some a) (hs : s a.id = none)
    (ht : a.dt = some t) (hc : c ≤ t) (hm : matchedB kw a.title = true) :
    (classifyLoop f kw c n l s).state = (classifyLoop g kw c n l s).state
      ∧ (classifyLoop f kw c n l s).notifs = (classifyLoop g kw c n l s).notifs
      ∧ (classifyLoop f kw c n l s).state a.id = some (some t)
      ∧ a ∈ (classifyLoop f kw c n l s).notifs := by
  rcases loop_deliver_irrel f g kw c n l s with ⟨h1, h2, _⟩
  have hwin : inWindowB c a = true := by
    rw [inWindowB, ht]
    exact decide_eq_true hc
  refine ⟨h1, h2, ?_, loop_first_notif f kw c n l s a.id a hs hf hwin hm⟩
  have hst := loop_first_state f kw c n l s a.id a hs hf
  rw [ht] at hst
  simpa using hst

/-- Witness for `c9_at_most_once`: delivery fails (`fun _ => false`) yet the
article is recorded and listed as notified. -/
theorem c9_at_most_once_witness :
    (firstWith (⟨['A'], ['x'], some 7⟩ : Article).id
        [(⟨['A'], ['x'], some 7⟩ : Article)] = some ⟨['A'], ['x'], some 7⟩)
      ∧ (⟨['A'], ['x'], some 7⟩ : Article).dt = some 7
      ∧ (5 : Int) ≤ 7
      ∧ matchedB [['x']] (⟨['A'], ['x'], some 7⟩ : Article).title = true
      ∧ ((classifyLoop (fun _ => false) [['x']] 5 10 [⟨['A'], ['x'], some 7⟩]
            emptyState).state (⟨['A'], ['x'], some 7⟩ : Article).id =
          some (some 7)
        ∧ (⟨['A'], ['x'], some 7⟩ : Article) ∈
            (classifyLoop (fun _ => false) [['x']] 5 10 [⟨['A'], ['x'], some 7⟩]
              emptyState).notifs) :=
  ⟨by decide, by decide, by decide, by decide,
    ⟨(c9_at_most_once (fun _ => false) (fun _ => true) [['x']] 5 10
        [⟨['A'], ['x'], some 7⟩] emptyState ⟨['A'], ['x'], some 7⟩ 7
        (by decide) rfl (by decide) (by decide) (by decide)).2.2.1,
      (c9_at_most_once (fun _ => false) (fun _ => true) [['x']] 5 10
        [⟨['A'], ['x'], some 7⟩] emptyState ⟨['A'], ['x'], some 7⟩ 7
        (by decide) rfl (by decide) (by decide) (by decide)).2.2.2⟩⟩

/-! ### Claim theorems about the crawler -/

/-- C8: when the transport exhausts its retries on the first listing page,
the crawl returns the empty article list (the model is a total function, so
no exception can escape), and the run returns before writing any state. -/
theorem c8_first_page_failure (b : Board) (d : List Char → Bool)
    (kw : List (List Char)) (c n : Int) (rp : Bool) (s : StateFn)
    (h : b.newest = none) :
    (crawl b (some c)).1 = [] ∧ runSave b d kw c n rp s = none := by
  have hc : crawl b (some c) = ([], [PageRef.newest]) := by
    unfold crawl; rw [h]
  constructor
  · rw [hc]
  · unfold runSave
    rw [hc]

/-- Witness for `c8_first_page_failure` on a concrete dead board. -/
theorem c8_first_page_failure_witness :
    (⟨none, fun _ => none⟩ : Board).newest = none
      ∧ ((crawl ⟨none, fun _ => none⟩ (some 5)).1 = []
        ∧ runSave ⟨none, fun _ => none⟩ (fun _ => true) [['x']] 5 10 true
            emptyState = none) :=
  ⟨rfl, c8_first_page_failure ⟨none, fun _ => none⟩ (fun _ => true) [['x']]
    5 10 true emptyState rfl⟩

/-! ### Lemmas about the pagination walker -/

theorem listMax_mem : ∀ (l : List Int), l ≠ [] → listMax l ∈ l := by
  intro l
  induction l with
  | nil => intro h; exact absurd rfl h
  | cons x xs ih =>
    intro _
    cases xs with
    | nil => simp [listMax]
    | cons y ys =>
      rcases max_choice x (listMax (y :: ys)) with h | h
      · rw [listMax, h]; exact List.mem_cons_self x _
      · rw [listMax, h]
        exact List.mem_cons_of_mem x (ih (by simp))

theorem pages_above (P : Nat → ListingPage) (c : Int) (m : Nat)
    (hne : ∀ k, k ≤ m + 1 → pageDates (P k) ≠ [])
    (hord : ∀ k, k ≤ m → ∀ t ∈ pageDates (P (k + 1)),
      ∀ u ∈ pageDates (P k), t < u)
    (hhigh : ∀ u ∈ pageDates (P m), c < u) :
    ∀ k, k ≤ m → ∀ u ∈ pageDates (P k), c < u := by
  have key : ∀ j, j ≤ m → ∀ u ∈ pageDates (P (m - j)), c < u := by
    intro j
    induction j with
    | zero => intro _ u hu; simpa using hhigh u hu
    | succ j ih =>
      intro hj u hu
      have hj' : j ≤ m := Nat.le_of_succ_le hj
      have hk : m - (j + 1) + 1 = m - j := by omega
      rcases List.exists_mem_of_ne_nil _ (hne (m - j) (by omega)) with ⟨t, ht⟩
      have h1 : t < u := by
        refine hord (m - (j + 1)) (by omega) t ?_ u hu
        rw [hk]; exact ht
      have h2 : c < t := ih hj' t ht
      omega
  intro k hk u hu
  have hs := key (m - k) (by omega) u
  have he : m - (m - k) = k := by omega
  rw [he] at hs
  exact hs hu

theorem crawlFrom_run (b : Board) (c : Int) (P : Nat → ListingPage)
    (m N : Nat) (hN : m ≤ N)
    (hidx : ∀ i, i ≤ m → b.indexed (N - i) = some (P (i + 1)))
    (hne : ∀ k, k ≤ m + 1 → pageDates (P k) ≠ [])
    (habove : ∀ k, k ≤ m → ∀ u ∈ pageDates (P k), c < u)
    (hlow : ∀ t ∈ pageDates (P (m + 1)), t < c) :
    ∀ d i, d + i = m →
      crawlFrom b c (N - i) =
        (pagesConcat P (i + 1) (m - i + 1), pageRefsFrom (N - i) (m - i + 1)) := by
  intro d
  induction d with
  | zero =>
    intro i hi
    have him : i = m := by omega
    subst him
    have hpg : b.indexed (N - i) = some (P (i + 1)) := hidx i le_rfl
    have hmax : listMax (pageDates (P (i + 1))) < c :=
      hlow _ (listMax_mem _ (hne (i + 1) (by omega)))
    have hres : ∀ j, b.indexed j = some (P (i + 1)) →
        crawlFrom b c j = (pageEntries (P (i + 1)), [PageRef.idx j]) := by
      intro j hj
      cases hd : pageDates (P (i + 1)) with
      | nil => exact absurd hd (hne (i + 1) (by omega))
      | cons x xs =>
        rw [hd] at hmax
        cases j with
        | zero => simp only [crawlFrom, hj, hd, if_pos hmax]
        | succ j' => simp only [crawlFrom, hj, hd, if_pos hmax]
    rw [hres (N - i) hpg]
    have hcnt : i - i + 1 = 1 := by omega
    rw [hcnt]
    simp [pagesConcat, pageRefsFrom]
  | succ d ih =>
    intro i hi
    have hlt : i < m := by omega
    have hsucc : N - i = Nat.succ (N - (i + 1)) := by omega
    have hpg : b.indexed (Nat.succ (N - (i + 1))) = some (P (i + 1)) := by
      rw [← hsucc]; exact hidx i (by omega)
    cases hd : pageDates (P (i + 1)) with
    | nil => exact absurd hd (hne (i + 1) (by omega))
    | cons x xs =>
      have hmax : ¬ listMax (x :: xs) < c := by
        have hm1 : c < listMax (x :: xs) := by
          refine habove (i + 1) (by omega) _ ?_
          rw [hd]
          exact listMax_mem _ (by simp)
        omega
      have hrec := ih (i + 1) (by omega)
      rw [hsucc]
      simp only [crawlFrom, hpg, hd, if_neg hmax]
      rw [hrec]
      have hc1 : m - i + 1 = Nat.succ (m - (i + 1) + 1) := by omega
      rw [hc1]
      simp only [pagesConcat, pageRefsFrom, Nat.succ_sub_one]

/-- C4, counterexample to the claim as stated: a two-page board, strictly
time-ordered (page 0 at time 10, page 1 at time 0) with the cutoff 5
strictly between page 0 and page 1 (so `m = 0`).  The claim says the walker
fetches exactly pages `0..0`, i.e. only `index.html`; the code fetches
`index.html` and `index7.html`, because it can only observe that a page is
entirely older than the cutoff by fetching it. -/
theorem c4_counterexample :
    ((crawl ⟨some ⟨[⟨['A'], ['t'], some 10⟩], some 7⟩,
        fun j => if j = 7 then some ⟨[⟨['B'], ['u'], some 0⟩], none⟩ else none⟩
      (some 5)).2 = [PageRef.newest, PageRef.idx 7])
      ∧ (crawl ⟨some ⟨[⟨['A'], ['t'], some 10⟩], some 7⟩,
          fun j => if j = 7 then some ⟨[⟨['B'], ['u'], some 0⟩], none⟩
            else none⟩
        (some 5)).2 ≠ [PageRef.newest] := by
  refine ⟨by decide, by decide⟩

/-- C4 (amended): on a board whose pages are strictly time-ordered
newest-to-oldest with the cutoff strictly between pages `m` and `m+1`, the
walker fetches exactly the listing pages `0..m+1` — `index.html` plus
`index N` down to `index (N-m)` — stopping at page `m+1`, the first page
whose maximum resolved timestamp is below the cutoff; the articles of all
fetched pages, page `m+1` included, are returned. -/
theorem c4_pagination (b : Board) (c : Int) (P : Nat → ListingPage)
    (m N : Nat) (hN : m ≤ N)
    (hnew : b.newest = some (P 0))
    (hlink : (P 0).prevLink = some N)
    (hidx : ∀ i, i ≤ m → b.indexed (N - i) = some (P (i + 1)))
    (hne : ∀ k, k ≤ m + 1 → pageDates (P k) ≠ [])
    (hord : ∀ k, k ≤ m → ∀ t ∈ pageDates (P (k + 1)),
      ∀ u ∈ pageDates (P k), t < u)
    (hhigh : ∀ u ∈ pageDates (P m), c < u)
    (hlow : ∀ t ∈ pageDates (P (m + 1)), t < c) :
    (crawl b (some c)).2 = PageRef.newest :: pageRefsFrom N (m + 1)
      ∧ (crawl b (some c)).1 = pageEntries (P 0) ++ pagesConcat P 1 (m + 1) := by
  have habove := pages_above P c m hne hord hhigh
  have hrun := crawlFrom_run b c P m N hN hidx hne habove hlow m 0 (by omega)
  simp only [Nat.sub_zero, Nat.zero_add] at hrun
  have hd0 : pageDates (P 0) ≠ [] := hne 0 (by omega)
  cases hd : pageDates (P 0) with
  | nil => exact absurd hd hd0
  | cons x xs =>
    have hmax : ¬ listMax (x :: xs) < c := by
      have hxm : c < listMax (x :: xs) := by
        refine habove 0 (by omega) _ ?_
        rw [hd]
        exact listMax_mem _ (by simp)
      omega
    have hcr : crawl b (some c) =
        (pageEntries (P 0) ++ (crawlFrom b c N).1,
          PageRef.newest :: (crawlFrom b c N).2) := by
      unfold crawl
      rw [hnew]
      simp only [hd, if_neg hmax, hlink]
    rw [hcr, hrun]
    exact ⟨rfl, rfl⟩

/-- Witness for `c4_pagination` on the concrete two-page board. -/
theorem c4_pagination_witness :
    ((crawl ⟨some ⟨[⟨['A'], ['t'], some 10⟩], some 7⟩,
        fun j => if j = 7 then some ⟨[⟨['B'], ['u'], some 0⟩], none⟩ else none⟩
      (some 5)).2 = PageRef.newest :: pageRefsFrom 7 1)
      ∧ (crawl ⟨some ⟨[⟨['A'], ['t'], some 10⟩], some 7⟩,
          fun j => if j = 7 then some ⟨[⟨['B'], ['u'], some 0⟩], none⟩
            else none⟩
        (some 5)).1 =
          pageEntries ((fun k => if k = 0 then
              (⟨[⟨['A'], ['t'], some 10⟩], some 7⟩ : ListingPage)
            else ⟨[⟨['B'], ['u'], some 0⟩], none⟩) 0) ++
            pagesConcat (fun k => if k = 0 then
              (⟨[⟨['A'], ['t'], some 10⟩], some 7⟩ : ListingPage)
            else ⟨[⟨['B'], ['u'], some 0⟩], none⟩) 1 1 :=
  c4_pagination
    ⟨some ⟨[⟨['A'], ['t'], some 10⟩], some 7⟩,
      fun j => if j = 7 then some ⟨[⟨['B'], ['u'], some 0⟩], none⟩ else none⟩
    5
    (fun k => if k = 0 then ⟨[⟨['A'], ['t'], some 10⟩], some 7⟩
      else ⟨[⟨['B'], ['u'], some 0⟩], none⟩)
    0 7 (by decide) (by decide) (by decide) (by decide) (by decide)
    (by decide) (by decide) (by decide)

/-! ### Lemmas about the state store -/

theorem dropWhile_ws_eq_self (l : List Char)
    (h : ∀ c ∈ l, wsChar c = false) : l.dropWhile wsChar = l := by
  cases l with
  | nil => rfl
  | cons c rest =>
    rw [List.dropWhile_cons, h c (List.mem_cons_self c rest)]
    simp

theorem trimL_eq_self (l : List Char) (h : ∀ c ∈ l, wsChar c = false) :
    trimL l = l := by
  unfold trimL
  rw [dropWhile_ws_eq_self l h]
  rw [dropWhile_ws_eq_self l.reverse (by
    intro c hc
    exact h c (List.mem_reverse.mp hc))]
  exact List.reverse_reverse l

theorem head?_append_left (l r : List Char) (h : l ≠ []) :
    (l ++ r).head? = l.head? := by
  cases l with
  | nil => exact absurd rfl h
  | cons c rest => rfl

theorem splitPipe_none_of (l : List Char) (h : '|' ∉ l) :
    splitPipe l = none := by
  induction l with
  | nil => rfl
  | cons c rest ih =>
    have hc : c ≠ '|' := fun he => h (he ▸ List.mem_cons_self c rest)
    rw [splitPipe, if_neg hc, ih (fun hm => h (List.mem_cons_of_mem c hm))]

theorem splitPipe_append (i r : List Char) (h : '|' ∉ i) :
    splitPipe (i ++ '|' :: r) = some (i, r) := by
  induction i with
  | nil => simp [splitPipe]
  | cons c rest ih =>
    have hc : c ≠ '|' := fun he => h (he ▸ List.mem_cons_self c rest)
    rw [List.cons_append, splitPipe, if_neg hc,
      ih (fun hm => h (List.mem_cons_of_mem c hm))]

theorem parseLine_junk (parse : List Char → Option Stamp) (l : List Char)
    (h : junkLine l = true) : parseLine parse l = none := by
  unfold junkLine at h
  unfold parseLine
  rcases Bool.or_eq_true_iff.mp h with h1 | h2
  · rw [if_pos (by exact of_decide_eq_true h1)]
  · by_cases hb : trimL l = []
    · rw [if_pos hb]
    · rw [if_neg hb, if_pos (by exact of_decide_eq_true h2)]

theorem parseLine_renderEntry (render : Stamp → List Char)
    (parse : List Char → Option Stamp) (i : List Char) (v : Option Stamp)
    (hid : goodId i) (hts : ∀ ts, v = some ts → goodStamp render parse ts) :
    parseLine parse (renderEntry render (i, v)) = some (i, v) := by
  rcases hid with ⟨hne, hws, hhash, hpipe⟩
  cases v with
  | none =>
    show parseLine parse i = some (i, none)
    unfold parseLine
    rw [trimL_eq_self i hws]
    rw [if_neg hne, if_neg hhash, splitPipe_none_of i hpipe]
  | some ts =>
    rcases hts ts rfl with ⟨hparse, htz, hrws⟩
    show parseLine parse (i ++ '|' :: render ts) = some (i, some ts)
    unfold parseLine
    have hall : ∀ c ∈ i ++ '|' :: render ts, wsChar c = false := by
      intro c hc
      rcases List.mem_append.mp hc with hc1 | hc2
      · exact hws c hc1
      · rcases List.mem_cons.mp hc2 with rfl | hc3
        · decide
        · exact hrws c hc3
    rw [trimL_eq_self _ hall]
    rcases ts with ⟨tv, tz⟩
    cases tz with
    | none => exact absurd rfl htz
    | some z =>
      rw [if_neg (by simp [hne]), head?_append_left i _ hne, if_neg hhash]
      simp only [splitPipe_append i (render (tv, some z)) hpipe, hparse]

theorem storeFind_append (s t : Store) (j : List Char) :
    storeFind (s ++ t) j =
      match storeFind s j with
      | some v => some v
      | none => storeFind t j := by
  induction s with
  | nil => simp [storeFind]
  | cons e rest ih =>
    by_cases he : e.1 = j
    · rw [List.cons_append, storeFind, if_pos he, storeFind, if_pos he]
    · rw [List.cons_append, storeFind, if_neg he, storeFind, if_neg he, ih]

theorem storeFind_eq_none_iff (s : Store) (j : List Char) :
    storeFind s j = none ↔ j ∉ storeKeys s := by
  induction s with
  | nil => simp [storeFind, storeKeys]
  | cons e rest ih =>
    by_cases he : e.1 = j
    · rw [storeFind, if_pos he]
      simp [storeKeys, he]
    · rw [storeFind, if_neg he, ih]
      simp [storeKeys]
      intro hj
      exact fun hh => he hh.symm

theorem storeFind_mem (s : Store) (j : List Char) (v : Option Stamp)
    (h : storeFind s j = some v) : (j, v) ∈ s := by
  induction s with
  | nil => cases h
  | cons e rest ih =>
    by_cases he : e.1 = j
    · rw [storeFind, if_pos he] at h
      rcases Option.some.inj h with rfl
      rcases e with ⟨ek, ev⟩
      rcases he with rfl
      exact List.mem_cons_self _ _
    · rw [storeFind, if_neg he] at h
      exact List.mem_cons_of_mem e (ih h)

theorem mem_storeFind (s : Store) (j : List Char) (v : Option Stamp)
    (hnd : (storeKeys s).Nodup) (h : (j, v) ∈ s) : storeFind s j = some v := by
  induction s with
  | nil => cases h
  | cons e rest ih =>
    have hnd0 : storeKeys (e :: rest) = e.1 :: storeKeys rest := rfl
    rw [hnd0] at hnd
    rcases List.nodup_cons.mp hnd with ⟨hek, hnd'⟩
    rcases List.mem_cons.mp h with rfl | hm
    · rw [storeFind, if_pos rfl]
    · have hjk : j ∈ storeKeys rest := List.mem_map.mpr ⟨(j, v), hm, rfl⟩
      have he : e.1 ≠ j := fun hh => hek (hh ▸ hjk)
      rw [storeFind, if_neg he]
      exact ih hnd' hm

theorem storeFind_perm (s t : Store) (hp : s.Perm t)
    (hnd : (storeKeys s).Nodup) (j : List Char) :
    storeFind s j = storeFind t j := by
  have hkp : (storeKeys s).Perm (storeKeys t) := by
    unfold storeKeys
    exact hp.map fun e => e.1
  have hndt : (storeKeys t).Nodup := hkp.nodup_iff.mp hnd
  cases hf : storeFind s j with
  | some v =>
    exact (mem_storeFind t j v hndt (hp.mem_iff.mp (storeFind_mem s j v hf))).symm
  | none =>
    have hnk : j ∉ storeKeys t := fun hk =>
      ((storeFind_eq_none_iff s j).mp hf) (hkp.mem_iff.mpr hk)
    exact ((storeFind_eq_none_iff t j).mpr hnk).symm

theorem storeFind_map_replace_self (i : List Char) (v : Option Stamp) :
    ∀ (s : Store), s.any (fun e => e.1 = i) = true →
      storeFind (s.map fun e => if e.1 = i then (i, v) else e) i = some v := by
  intro s
  induction s with
  | nil => intro h; cases h
  | cons e rest ih =>
    intro hany
    by_cases he : e.1 = i
    · rw [List.map_cons, if_pos he, storeFind, if_pos rfl]
    · rw [List.map_cons, if_neg he, storeFind, if_neg he]
      apply ih
      rcases List.any_eq_true.mp hany with ⟨x, hx, hxe⟩
      rcases List.mem_cons.mp hx with rfl | hm
      · exact absurd (of_decide_eq_true hxe) he
      · exact List.any_eq_true.mpr ⟨x, hm, hxe⟩

theorem storeFind_map_replace_ne (i : List Char) (v : Option Stamp)
    (j : List Char) (hj : j ≠ i) : ∀ (s : Store),
      storeFind (s.map fun e => if e.1 = i then (i, v) else e) j =
        storeFind s j := by
  intro s
  induction s with
  | nil => rfl
  | cons e rest ih =>
    by_cases he : e.1 = i
    · have hne1 : ¬ (i, v).1 = j := fun hh => hj hh.symm
      have hne2 : ¬ e.1 = j := fun hh => hj (hh ▸ he)
      rw [List.map_cons, if_pos he, storeFind, storeFind, if_neg hne1,
        if_neg hne2, ih]
    · rw [List.map_cons, if_neg he, storeFind, storeFind, ih]

theorem storeFind_dictInsert (s : Store) (i : List Char) (v : Option Stamp)
    (j : List Char) :
    storeFind (dictInsert s i v) j = if j = i then some v else storeFind s j := by
  unfold dictInsert
  by_cases hany : s.any (fun e => e.1 = i) = true
  · rw [if_pos hany]
    by_cases hj : j = i
    · rw [if_pos hj, hj]
      exact storeFind_map_replace_self i v s hany
    · rw [if_neg hj]
      exact storeFind_map_replace_ne i v j hj s
  · rw [if_neg hany, storeFind_append]
    by_cases hj : j = i
    · subst hj
      have hn : storeFind s j = none := by
        rw [storeFind_eq_none_iff]
        intro hk
        rcases List.mem_map.mp hk with ⟨e, he, hej⟩
        exact hany (List.any_eq_true.mpr ⟨e, he, decide_eq_true hej⟩)
      rw [hn, if_pos rfl]
      rw [storeFind, if_pos rfl]
    · rw [if_neg hj]
      cases hf : storeFind s j with
      | some w => rfl
      | none =>
        show storeFind [(i, v)] j = none
        rw [storeFind, if_neg (fun hh => hj hh.symm)]
        rfl

theorem storeFind_foldl_insert :
    ∀ (es acc : Store) (j : List Char), (storeKeys es).Nodup →
      storeFind (es.foldl (fun s e => dictInsert s e.1 e.2) acc) j =
        match storeFind es j with
        | some v => some v
        | none => storeFind acc j := by
  intro es
  induction es with
  | nil => intro acc j _; rfl
  | cons e rest ih =>
    intro acc j hnd
    have hnd0 : storeKeys (e :: rest) = e.1 :: storeKeys rest := rfl
    rw [hnd0] at hnd
    rcases List.nodup_cons.mp hnd with ⟨hek, hnd'⟩
    rw [List.foldl_cons, ih (dictInsert acc e.1 e.2) j hnd']
    by_cases hj : j = e.1
    · have hn : storeFind rest j = none := by
        rw [storeFind_eq_none_iff, hj]
        exact hek
      rw [hn, storeFind, if_pos hj.symm, storeFind_dictInsert, if_pos hj]
    · rw [storeFind, if_neg (fun hh => hj hh.symm)]
      cases hf : storeFind rest j with
      | some w => rfl
      | none => rw [storeFind_dictInsert, if_neg hj]

theorem lexLe_total : ∀ (a b : List Char), lexLe a b = true ∨ lexLe b a = true := by
  intro a
  induction a with
  | nil => intro b; exact Or.inl rfl
  | cons c as_ ih =>
    intro b
    cases b with
    | nil => exact Or.inr rfl
    | cons d bs =>
      by_cases hcd : c = d
      · subst hcd
        rcases ih bs with h | h
        · exact Or.inl (by rw [lexLe, if_pos rfl]; exact h)
        · exact Or.inr (by rw [lexLe, if_pos rfl]; exact h)
      · rcases lt_or_gt_of_ne hcd with h | h
        · exact Or.inl (by rw [lexLe, if_neg hcd]; exact decide_eq_true h)
        · refine Or.inr ?_
          rw [lexLe, if_neg (fun hh => hcd hh.symm)]
          exact decide_eq_true h

theorem lexLe_trans : ∀ (a b c : List Char),
    lexLe a b = true → lexLe b c = true → lexLe a c = true := by
  intro a
  induction a with
  | nil => intro b c _ _; rfl
  | cons x as_ ih =>
    intro b c h1 h2
    cases b with
    | nil => cases h1
    | cons y bs =>
      cases c with
      | nil => cases h2
      | cons z cs =>
        by_cases hxy : x = y <;> by_cases hyz : y = z
        · subst hxy; subst hyz
          rw [lexLe, if_pos rfl] at h1 h2 ⊢
          exact ih bs cs h1 h2
        · subst hxy
          rw [lexLe, if_neg hyz] at h2
          rw [lexLe, if_neg hyz]
          exact h2
        · subst hyz
          rw [lexLe, if_neg hxy] at h1
          rw [lexLe, if_neg hxy]
          exact h1
        · rw [lexLe, if_neg hxy] at h1
          rw [lexLe, if_neg hyz] at h2
          have hlt : x < z :=
            lt_trans (of_decide_eq_true h1) (of_decide_eq_true h2)
          rw [lexLe, if_neg (ne_of_lt hlt)]
          exact decide_eq_true hlt

theorem loadLines_entries (render : Stamp → List Char)
    (parse : List Char → Option Stamp) :
    ∀ (es acc : Store),
      (∀ e ∈ es, goodId e.1 ∧ ∀ ts, e.2 = some ts → goodStamp render parse ts) →
      List.foldl
        (fun s line =>
          match parseLine parse line with
          | none => s
          | some (i, v) => dictInsert s i v)
        acc (es.map (renderEntry render)) =
      List.foldl (fun s e => dictInsert s e.1 e.2) acc es := by
  intro es
  induction es with
  | nil => intro acc _; rfl
  | cons e rest ih =>
    intro acc h
    rw [List.map_cons, List.foldl_cons, List.foldl_cons]
    have he := h e (List.mem_cons_self e rest)
    have hp : parseLine parse (renderEntry render e) = some (e.1, e.2) := by
      rcases e with ⟨ei, ev⟩
      exact parseLine_renderEntry render parse ei ev he.1 he.2
    rw [hp]
    exact ih (dictInsert acc e.1 e.2) fun x hx => h x (List.mem_cons_of_mem e hx)

theorem loadLines_ignores_junk (parse : List Char → Option Stamp) :
    ∀ (lines : List (List Char)) (acc : Store),
      List.foldl
        (fun s line =>
          match parseLine parse line with
          | none => s
          | some (i, v) => dictInsert s i v)
        acc lines =
      List.foldl
        (fun s line =>
          match parseLine parse line with
          | none => s
          | some (i, v) => dictInsert s i v)
        acc (lines.filter fun l => junkLine l = false) := by
  intro lines
  induction lines with
  | nil => intro acc; rfl
  | cons l rest ih =>
    intro acc
    by_cases hj : junkLine l = true
    · rw [List.foldl_cons, parseLine_junk parse l hj]
      have hf : (l :: rest).filter (fun x => junkLine x = false) =
          rest.filter fun x => junkLine x = false := by
        rw [List.filter_cons]
        simp [hj]
      rw [hf]
      exact ih acc
    · have hf : (l :: rest).filter (fun x => junkLine x = false) =
          l :: rest.filter fun x => junkLine x = false := by
        rw [List.filter_cons]
        simp [Bool.not_eq_true _ ▸ hj]
      rw [hf, List.foldl_cons, List.foldl_cons]
      cases hp : parseLine parse l with
      | none => exact ih acc
      | some e =>
        rcases e with ⟨i, v⟩
        exact ih (dictInsert acc i v)

/-! ### Claim theorems about the state store -/

/-- C7, counterexample to the claim as stated: the round trip is claimed for
every map, but a map whose id starts with the comment marker is written as a
line that the loader then discards as a comment, so `load (save m)` loses
the entry. -/
theorem c7_counterexample :
    storeFind (loadLines (fun _ => none)
        (saveLines (fun _ => []) [(['#', 'a'], none)])) ['#', 'a'] ≠
      storeFind [(['#', 'a'], (none : Option Stamp))] ['#', 'a'] := by
  decide

/-- C7 (amended): for every map with pairwise-distinct ids that are
nonempty, whitespace-free, pipe-free and do not start with `'#'`, and whose
stored timestamps are zoned and round-trip through the external ISO
formatter: `load (save m)` equals `m` as a dictionary; `save` writes one
line per entry, in ascending id order; on load, blank and `'#'` lines are
ignored and a bare-id line yields an entry with unknown timestamp. -/
theorem c7_roundtrip (render : Stamp → List Char)
    (parse : List Char → Option Stamp) (m : Store)
    (hkeys : (storeKeys m).Nodup)
    (hgood : ∀ e ∈ m, goodId e.1)
    (hts : ∀ e ∈ m, ∀ ts, e.2 = some ts → goodStamp render parse ts) :
    storeEquiv (loadLines parse (saveLines render m)) m
      ∧ (saveLines render m).length = m.length
      ∧ List.Pairwise (fun x y => lexLe x y = true) (storeKeys (sortStore m))
      ∧ (∀ lines, loadLines parse lines =
          loadLines parse (lines.filter fun l => junkLine l = false))
      ∧ ∀ i, goodId i → loadLines parse [i] = [(i, none)] := by
  have hperm : (sortStore m).Perm m := List.perm_insertionSort _ m
  have hkp : (storeKeys (sortStore m)).Perm (storeKeys m) := by
    unfold storeKeys
    exact hperm.map fun e => e.1
  have hknd : (storeKeys (sortStore m)).Nodup := hkp.nodup_iff.mpr hkeys
  refine ⟨?_, ?_, ?_, ?_, ?_⟩
  · intro j
    have hld : loadLines parse (saveLines render m) =
        (sortStore m).foldl (fun s e => dictInsert s e.1 e.2) [] := by
      unfold loadLines saveLines
      exact loadLines_entries render parse (sortStore m) [] fun e he =>
        ⟨hgood e (hperm.mem_iff.mp he), hts e (hperm.mem_iff.mp he)⟩
    rw [hld]
    rw [storeFind_foldl_insert (sortStore m) [] j hknd]
    rw [storeFind_perm (sortStore m) m hperm hknd j]
    cases storeFind m j with
    | some v => rfl
    | none => rfl
  · show ((sortStore m).map (renderEntry render)).length = m.length
    rw [List.length_map]
    exact List.length_insertionSort _ m
  · haveI : IsTotal (List Char × Option Stamp)
        (fun e f => lexLe e.1 f.1 = true) :=
      ⟨fun a b => lexLe_total a.1 b.1⟩
    haveI : IsTrans (List Char × Option Stamp)
        (fun e f => lexLe e.1 f.1 = true) :=
      ⟨fun a b c => lexLe_trans a.1 b.1 c.1⟩
    have hs := List.sorted_insertionSort
      (fun (e f : List Char × Option Stamp) => lexLe e.1 f.1 = true) m
    unfold storeKeys
    rw [List.pairwise_map]
    exact hs
  · intro lines
    exact loadLines_ignores_junk parse lines []
  · intro i hid
    have hp : parseLine parse i = some (i, none) :=
      parseLine_renderEntry render parse i none hid
        (fun ts h => Option.noConfusion h)
    show List.foldl _ [] [i] = [(i, none)]
    rw [List.foldl_cons, hp, List.foldl_nil]
    show dictInsert [] i none = [(i, none)]
    rfl

/-- Witness for `c7_roundtrip` on a concrete two-entry map together with a
concrete formatter contract. -/
theorem c7_roundtrip_witness :
    storeEquiv
        (loadLines (fun l => if l = ['5'] then some (5, some 480) else none)
          (saveLines (fun _ => ['5'])
            [(['a'], some ((5 : Int), some (480 : Int))), (['b'], none)]))
        [(['a'], some ((5 : Int), some (480 : Int))), (['b'], none)]
      ∧ (saveLines (fun _ => ['5'])
          [(['a'], some ((5 : Int), some (480 : Int))), (['b'], none)]).length =
        ([(['a'], some ((5 : Int), some (480 : Int))), (['b'], none)] :
          Store).length
      ∧ List.Pairwise (fun x y => lexLe x y = true)
          (storeKeys (sortStore
            [(['a'], some ((5 : Int), some (480 : Int))), (['b'], none)]))
      ∧ loadLines (fun l => if l = ['5'] then some (5, some 480) else none)
          [['#', 'x'], [], ['c']] =
          loadLines (fun l => if l = ['5'] then some (5, some 480) else none)
            ((([['#', 'x'], [], ['c']] : List (List Char))).filter
              fun l => junkLine l = false)
      ∧ loadLines (fun l => if l = ['5'] then some (5, some 480) else none)
          [['c']] = [(['c'], none)] := by
  have h := c7_roundtrip (fun _ => ['5'])
    (fun l => if l = ['5'] then some (5, some 480) else none)
    [(['a'], some ((5 : Int), some (480 : Int))), (['b'], none)]
    (by decide)
    (by decide)
    (by
      intro e he ts hets
      rcases List.mem_cons.mp he with rfl | he2
      · rcases Option.some.inj hets with rfl
        decide
      · rcases List.mem_cons.mp he2 with rfl | he3
        · cases hets
        · cases he3)
  exact ⟨h.1, h.2.1, h.2.2.1, h.2.2.2.1 [['#', 'x'], [], ['c']],
    h.2.2.2.2 ['c'] (by decide)⟩

/-- C10: a loader line `id|ts` whose timestamp part does not parse yields an
entry for `id` with unknown timestamp (the line is kept, and the model is
total — the `ValueError` is absorbed), and a parsed timestamp without a
timezone offset is assigned the Taipei offset. -/
theorem c10_loader_tolerance (parse : List Char → Option Stamp)
    (i ts : List Char) (hid : goodId i)
    (hws : ∀ c ∈ ts, wsChar c = false) :
    (parse ts = none → loadLines parse [i ++ '|' :: ts] = [(i, none)])
      ∧ ∀ v : Int, parse ts = some (v, none) →
          loadLines parse [i ++ '|' :: ts] = [(i, some (v, some taipeiTz))] := by
  rcases hid with ⟨hne, hiws, hhash, hpipe⟩
  have hall : ∀ c ∈ i ++ '|' :: ts, wsChar c = false := by
    intro c hc
    rcases List.mem_append.mp hc with hc1 | hc2
    · exact hiws c hc1
    · rcases List.mem_cons.mp hc2 with rfl | hc3
      · decide
      · exact hws c hc3
  have hsp : splitPipe (i ++ '|' :: ts) = some (i, ts) :=
    splitPipe_append i ts hpipe
  constructor
  · intro hp
    have hpl : parseLine parse (i ++ '|' :: ts) = some (i, none) := by
      unfold parseLine
      rw [trimL_eq_self _ hall, if_neg (by simp [hne]),
        head?_append_left i _ hne, if_neg hhash]
      simp only [hsp, hp]
    show List.foldl _ [] [i ++ '|' :: ts] = [(i, none)]
    rw [List.foldl_cons, hpl, List.foldl_nil]
    show dictInsert [] i none = [(i, none)]
    rfl
  · intro v hp
    have hpl : parseLine parse (i ++ '|' :: ts) =
        some (i, some (v, some taipeiTz)) := by
      unfold parseLine
      rw [trimL_eq_self _ hall, if_neg (by simp [hne]),
        head?_append_left i _ hne, if_neg hhash]
      simp only [hsp, hp]
    show List.foldl _ [] [i ++ '|' :: ts] = [(i, some (v, some taipeiTz))]
    rw [List.foldl_cons, hpl, List.foldl_nil]
    show dictInsert [] i (some (v, some taipeiTz)) =
      [(i, some (v, some taipeiTz))]
    rfl

/-- Witness for `c10_loader_tolerance` on concrete lines: `a|x` with an
unparsable stamp and `a|9` with a parsable naive stamp. -/
theorem c10_loader_tolerance_witness :
    ((fun l => if l = ['9'] then some ((9 : Int), (none : Option Int))
        else none) ['x'] = none)
      ∧ loadLines
          (fun l => if l = ['9'] then some ((9 : Int), (none : Option Int))
            else none)
          [['a'] ++ '|' :: ['x']] = [(['a'], none)]
      ∧ ((fun l => if l = ['9'] then some ((9 : Int), (none : Option Int))
          else none) ['9'] = some (9, none))
      ∧ loadLines
          (fun l => if l = ['9'] then some ((9 : Int), (none : Option Int))
            else none)
          [['a'] ++ '|' :: ['9']] = [(['a'], some (9, some taipeiTz))] :=
  ⟨by decide,
    (c10_loader_tolerance
      (fun l => if l = ['9'] then some ((9 : Int), (none : Option Int))
        else none)
      ['a'] ['x'] (by decide) (by decide)).1 (by decide),
    by decide,
    (c10_loader_tolerance
      (fun l => if l = ['9'] then some ((9 : Int), (none : Option Int))
        else none)
      ['a'] ['9'] (by decide) (by decide)).2 9 (by decide)⟩
